import Mathlib

/-!
Verification of the ddsp-realtime synthesis core.

This file gives a shallow embedding, in Lean, of the parts of the
ddsp-realtime C++ repository that the checked properties talk about:

* `HarmonicSynthesizer` (src/core/src/HarmonicSynthesizer.cpp): the
  normalization / Nyquist-filter step, midway linear interpolation, phase
  accumulation and the additive mixing loop.
* the NaN sanitization loop at the end of `PredictControlsModel::call`
  (src/core/src/PredictControlsModel.cpp, lines 282-288).
* `InferencePipeline` (src/core/src/InferencePipeline.cpp): `prepareToPlay`,
  `reset`, `zeroPadInputBuffer`, `pushToInputBuffer`, `popFromOutputBuffer`,
  `getNextBlock`, `getNumReadySamples` and the `render` tick, together with
  `DDSPConfig::updateForSampleRate` (src/core/include/ddsp/DDSPTypes.h).

C++ `float`/`double` scalars are idealized as real numbers; the float
constant `kTwoPi = 2.0f * 3.14159265358979323846f` is idealized as the real
number `2 * pi`.  `std::fmod` and `static_cast<int>` (truncation toward
zero) are modelled explicitly.  External collaborators that are not part of
this repository are modelled at their interface: the TFLite interpreter
invocation becomes an `Option`-valued parameter of the render step, the
JUCE windowed-sinc resampler output becomes a list parameter, and
`juce::AbstractFifo` together with its backing `AudioBuffer` is modelled
from the specification's description of the SPSC sample ring.
-/

namespace DDSP

/-- Truncation toward zero, the behavior of C++ `static_cast` from a
floating-point value to an integer type. -/
noncomputable def ctrunc (x : ℝ) : ℤ :=
  if 0 ≤ x then ⌊x⌋ else ⌈x⌉

/-- C++ `std::fmod x y`: the remainder `x - trunc (x / y) * y`. -/
noncomputable def cfmod (x y : ℝ) : ℝ :=
  x - y * (ctrunc (x / y) : ℝ)

/-- Truncation toward zero on rationals, the behavior of
`static_cast<int>` applied to a `double` expression. -/
def ratTrunc (q : ℚ) : ℤ :=
  if 0 ≤ q then ⌊q⌋ else ⌈q⌉

/-- The float constant `kTwoPi` of HarmonicSynthesizer.cpp, idealized as
the real number `2 * pi`. -/
noncomputable def kTwoPi : ℝ := 2 * Real.pi

/-- `HarmonicSynthesizer::interpolateLinearly(begin, end, first, last)` on a
range of `num` samples: sample `i` is `first + (i / num) * (last - first)`. -/
noncomputable def interpolateLinearly (num : ℕ) (first last : ℝ) : List ℝ :=
  (List.range num).map fun (i : ℕ) => first + ((i : ℝ) / (num : ℝ)) * (last - first)

/-- `HarmonicSynthesizer::midwayLerp(first, last, result)` for a result of
`len` samples: linear interpolation over the first `len / 2` samples, then
constant at `last` for the remaining samples. -/
noncomputable def midwayLerp (len : ℕ) (first last : ℝ) : List ℝ :=
  interpolateLinearly (len / 2) first last ++ List.replicate (len - len / 2) last

/-- `std::partial_sum`: `out[0] = in[0]`, `out[i] = out[i-1] + in[i]`. -/
def cumsum : List ℝ → List ℝ
  | [] => []
  | x :: xs => x :: (cumsum xs).map (fun y => x + y)

/-- `HarmonicSynthesizer::normalizeHarmonicDistribution`: zero every
coefficient whose harmonic frequency `(i+1) * f0` reaches Nyquist
(`sample_rate / 2`), divide by the total if it is nonzero, then scale by
`amplitude`.  `numH` is `num_harmonics_`; the C++ loops index the first
`numH` entries of the vector. -/
noncomputable def normalizeHarmonicDistribution (numH : ℕ) (sample_rate : ℝ)
    (harmonic_distribution : List ℝ) (amplitude f0_hz : ℝ) : List ℝ :=
  let nyquist := sample_rate / 2
  let zeroed := (List.range numH).map fun (i : ℕ) =>
    if nyquist ≤ ((i : ℝ) + 1) * f0_hz then 0 else harmonic_distribution.getD i 0
  let total := zeroed.sum
  let normalized := if total = 0 then zeroed else zeroed.map fun c => c * (1 / total)
  normalized.map fun c => c * amplitude

/-- The persistent state of `HarmonicSynthesizer`
(HarmonicSynthesizer.h): previous phase, previous f0 (optional), previous
(normalized) harmonic distribution, previous amplitude. -/
structure HarmonicState where
  previous_phase : ℝ
  previous_f0 : Option ℝ
  previous_harmonic_distribution : List ℝ
  previous_amplitude : ℝ

/-- The state established by the `HarmonicSynthesizer` constructor for
`numH` harmonics: phase 0, no previous f0, all-zero distribution. -/
def HarmonicState.init (numH : ℕ) : HarmonicState :=
  { previous_phase := 0
    previous_f0 := none
    previous_harmonic_distribution := List.replicate numH 0
    previous_amplitude := 0 }

/-- `HarmonicSynthesizer::reset()`: restores the constructor state. -/
def HarmonicState.resetState (numH : ℕ) (_st : HarmonicState) : HarmonicState :=
  HarmonicState.init numH

/-- `HarmonicSynthesizer::render` followed by `synthesizeHarmonics`, for a
synthesizer with `numH` harmonics, `L` output samples and sample rate
`fs`: normalize the distribution, midway-lerp the frequency envelope and
the per-harmonic amplitude envelopes, accumulate phase (cumulative sum of
radians-per-sample plus the previous phase), wrap the final phase with
`fmod`, and mix `sin(phase * (h+1)) * amp` over all harmonics.  Returns
the rendered samples together with the updated state. -/
noncomputable def render (numH L : ℕ) (fs : ℝ) (st : HarmonicState)
    (harmonic_distribution : List ℝ) (amplitude f0_hz : ℝ) : List ℝ × HarmonicState :=
  let nd := normalizeHarmonicDistribution numH fs harmonic_distribution amplitude f0_hz
  let prev_f0 := st.previous_f0.getD f0_hz
  let frequency_envelope := midwayLerp L prev_f0 f0_hz
  let harmonic_amplitudes := (List.range numH).map fun i =>
    midwayLerp L (st.previous_harmonic_distribution.getD i 0) (nd.getD i 0)
  let radians := frequency_envelope.map fun f => f * (kTwoPi / fs)
  let phases := (cumsum radians).map fun p => p + st.previous_phase
  let new_phase := cfmod (phases.getLastD 0) kTwoPi
  let output := (List.range L).map fun (s : ℕ) =>
    ((List.range numH).map fun (h : ℕ) =>
      Real.sin (phases.getD s 0 * ((h : ℝ) + 1)) * ((harmonic_amplitudes.getD h []).getD s 0)).sum
  (output,
   { previous_phase := new_phase
     previous_f0 := some f0_hz
     previous_harmonic_distribution := nd
     previous_amplitude := amplitude })

/-- The HarmonicState invariant stated by the specification:
`previous_phase` lies in `[0, 2*pi)`. -/
noncomputable def phaseInvariant (st : HarmonicState) : Prop :=
  0 ≤ st.previous_phase ∧ st.previous_phase < kTwoPi

/-- A `float` value as the NaN sanitization loop of
`PredictControlsModel::call` distinguishes them: NaN, the two infinities,
or a finite value (idealized as a rational). -/
inductive FloatVal where
  | nan : FloatVal
  | posInf : FloatVal
  | negInf : FloatVal
  | val : ℚ → FloatVal
deriving DecidableEq

/-- `std::isnan`. -/
def FloatVal.isNaN : FloatVal → Bool
  | FloatVal.nan => true
  | _ => false

/-- `std::isfinite`: true exactly on finite values. -/
def FloatVal.isFiniteVal : FloatVal → Bool
  | FloatVal.val _ => true
  | _ => false

/-- The sanitization loop at the end of `PredictControlsModel::call`
(PredictControlsModel.cpp lines 282-288): for each harmonic in order, if it
is NaN, set it to 0 and set the amplitude to 0.  Returns the rewritten
harmonics together with the resulting amplitude.  The tensor outputs the
loop runs on come from the external TFLite interpreter and are therefore
arbitrary arguments here. -/
def sanitizeHarmonics : List FloatVal → FloatVal → List FloatVal × FloatVal
  | [], amplitude => ([], amplitude)
  | h :: rest, amplitude =>
    if h.isNaN then
      let r := sanitizeHarmonics rest (FloatVal.val 0)
      (FloatVal.val 0 :: r.1, r.2)
    else
      let r := sanitizeHarmonics rest amplitude
      (h :: r.1, r.2)

/-- Modelled from the spec: the `juce::AbstractFifo` index pair together
with its backing `juce::AudioBuffer` ring (the JUCE library is an external
collaborator, not part of this repository).  The spec describes it as a
single-producer/single-consumer sample ring of size 61440 in which reads
and writes are monotonic, the consumer never reads past the committed
producer index, reads return at most the number of ready samples, and a
write that exceeds the free space drops the tail of the write
(spec sections 3 and 4.E).  `data` holds the committed samples, oldest
first. -/
structure Fifo where
  capacity : ℕ
  data : List ℝ

/-- `AbstractFifo::getNumReady`. -/
def Fifo.numReady (f : Fifo) : ℕ := f.data.length

/-- Free space left in the ring. -/
def Fifo.freeSpace (f : Fifo) : ℕ := f.capacity - f.data.length

/-- `prepareToWrite` / copy / `finishedWrite`: append as much of `xs` as
fits in the free space, dropping the tail of the write. -/
def Fifo.write (f : Fifo) (xs : List ℝ) : Fifo :=
  { capacity := f.capacity, data := f.data ++ xs.take f.freeSpace }

/-- `prepareToRead` / copy / `finishedRead`: remove and return up to `n`
of the oldest committed samples. -/
def Fifo.read (f : Fifo) (n : ℕ) : List ℝ × Fifo :=
  (f.data.take n, { capacity := f.capacity, data := f.data.drop n })

/-- `AbstractFifo::reset`: discard all committed samples. -/
def Fifo.reset (f : Fifo) : Fifo :=
  { capacity := f.capacity, data := [] }

/-- The scratch state of `NoiseSynthesizer` that its `reset()` clears
(NoiseSynthesizer.cpp lines 31-35): the output buffer, the windowed
impulse response and the white-noise buffer. -/
structure NoiseState where
  noise_audio : List ℝ
  windowed_impulse_response : List ℝ
  white_noise : List ℝ

/-- `NoiseSynthesizer::reset()`: fill all three buffers with zeros. -/
def NoiseState.resetState (st : NoiseState) : NoiseState :=
  { noise_audio := List.replicate st.noise_audio.length 0
    windowed_impulse_response := List.replicate st.windowed_impulse_response.length 0
    white_noise := List.replicate st.white_noise.length 0 }

/-- The controls produced by one predictor call, as consumed by the render
tick (DDSPTypes.h `SynthesisControls`, scalars idealized as reals). -/
structure SynthesisControls where
  amplitude : ℝ
  f0_hz : ℝ
  noiseAmps : List ℝ
  harmonics : List ℝ

/-- The state of `InferencePipeline` (InferencePipeline.h): configuration,
the predictor's GRU state, both synthesizer states, the two rings, the
atomic control block, the UI feedback values and the worker run flag.
The host sample rate (a `double`) is kept as a rational so that the
integer frame/hop computations are exact. -/
structure PipelineState where
  sample_rate : ℚ
  samples_per_block : ℤ
  user_frame_size : ℤ
  user_hop_size : ℤ
  model_ready : Bool
  gru_state : List ℝ
  harmonic : HarmonicState
  noise : NoiseState
  input_fifo : Option Fifo
  output_fifo : Option Fifo
  f0_hz : ℝ
  loudness_norm : ℝ
  pitch_shift_semitones : ℝ
  harmonic_gain : ℝ
  noise_gain : ℝ
  current_pitch : ℝ
  current_rms : ℝ
  should_run : Bool

/-- The `InferencePipeline` constructor state: 48 kHz defaults, no rings
yet, predictor state zeroed, synthesizers freshly constructed, worker not
running. -/
noncomputable def initPipeline : PipelineState :=
  { sample_rate := 48000
    samples_per_block := 512
    user_frame_size := 0
    user_hop_size := 0
    model_ready := false
    gru_state := List.replicate 512 0
    harmonic := HarmonicState.init 60
    noise :=
      { noise_audio := List.replicate 320 0
        windowed_impulse_response := List.replicate 1024 0
        white_noise := List.replicate 1024 0 }
    input_fifo := none
    output_fifo := none
    f0_hz := 440
    loudness_norm := 1 / 2
    pitch_shift_semitones := 0
    harmonic_gain := 1
    noise_gain := 1
    current_pitch := 0
    current_rms := 0
    should_run := false }

/-- `InferencePipeline::pushToInputBuffer`: write the buffer into the
input ring, if the ring exists. -/
def pushToInputBuffer (st : PipelineState) (buffer : List ℝ) : PipelineState :=
  match st.input_fifo with
  | none => st
  | some f => { st with input_fifo := some (f.write buffer) }

/-- `InferencePipeline::zeroPadInputBuffer`: push `user_frame_size` zeros
into the input ring, unless `user_frame_size <= 0` or the input ring does
not exist. -/
def zeroPadInputBuffer (st : PipelineState) : PipelineState :=
  if st.user_frame_size ≤ 0 then st
  else
    match st.input_fifo with
    | none => st
    | some _ => pushToInputBuffer st (List.replicate st.user_frame_size.toNat 0)

/-- `InferencePipeline::reset`: reset the predictor state and both
synthesizers, clear both rings, and zero-pad the input ring.  The worker
run flag and thread are not touched. -/
def resetPipeline (st : PipelineState) : PipelineState :=
  zeroPadInputBuffer
    { st with
      gru_state := List.replicate 512 0
      harmonic := HarmonicState.resetState 60 st.harmonic
      noise := st.noise.resetState
      input_fifo := st.input_fifo.map Fifo.reset
      output_fifo := st.output_fifo.map Fifo.reset }

/-- `InferencePipeline::prepareToPlay`: record the host rate and block
size, compute `user_frame_size = ceil(rate * 1024 / 16000)` and
`user_hop_size = trunc(rate * 320 / 16000)` (the `static_cast<int>` of the
`double` quotient), create both rings with capacity 61440, then `reset`. -/
def prepareToPlay (st : PipelineState) (sample_rate : ℚ) (samples_per_block : ℤ) :
    PipelineState :=
  resetPipeline
    { st with
      sample_rate := sample_rate
      samples_per_block := samples_per_block
      user_frame_size := ⌈sample_rate * 1024 / 16000⌉
      user_hop_size := ratTrunc (sample_rate * 320 / 16000)
      input_fifo := some { capacity := 61440, data := [] }
      output_fifo := some { capacity := 61440, data := [] } }

/-- `InferencePipeline::popFromOutputBuffer(output, num_samples)`: if the
output ring does not exist, return 0 leaving the destination untouched;
otherwise read up to `num_samples` ready samples into the head of the
destination, zero-fill the remaining requested positions, and return the
number of samples actually read.  The first component is the destination
buffer after the call (positions past `num_samples` are untouched). -/
def popFromOutputBuffer (st : PipelineState) (output : List ℝ) (num_samples : ℕ) :
    List ℝ × ℕ × PipelineState :=
  match st.output_fifo with
  | none => (output, 0, st)
  | some f =>
    let r := f.read num_samples
    let total_read := r.1.length
    (r.1 ++ List.replicate (num_samples - total_read) 0 ++ output.drop num_samples,
     total_read,
     { st with output_fifo := some r.2 })

/-- `InferencePipeline::getNextBlock`: delegates to
`popFromOutputBuffer`. -/
def getNextBlock (st : PipelineState) (output : List ℝ) (num_samples : ℕ) :
    List ℝ × ℕ × PipelineState :=
  popFromOutputBuffer st output num_samples

/-- `InferencePipeline::getNumReadySamples`. -/
def getNumReadySamples (st : PipelineState) : ℕ :=
  match st.output_fifo with
  | none => 0
  | some f => f.numReady

/-- `InferencePipeline::stopTimer`: clear the worker run flag (the thread
is then joined). -/
def stopTimer (st : PipelineState) : PipelineState :=
  { st with should_run := false }

/-- `offsetPitch` (InputUtils.h): shift a frequency by a number of
semitones. -/
noncomputable def offsetPitch (pitch_Hz semitone_offset : ℝ) : ℝ :=
  pitch_Hz * (2 : ℝ) ^ (semitone_offset / 12)

/-- `normalizedPitch` (InputUtils.h): clamp to the pitch range, convert to
a MIDI note and divide by 127. -/
noncomputable def normalizedPitch (pitch_Hz : ℝ) : ℝ :=
  let clamped := min (max pitch_Hz 8.18) 12543.84
  (12 * (Real.logb 2 clamped - Real.logb 2 440) + 69) / 127

/-- One `InferencePipeline::render` tick.  The TFLite predictor call is an
external collaborator and enters as `model_result` (`none` models a failed
`PredictControlsModel::call`); the JUCE windowed-sinc resampler is likewise
external and its output buffer enters as `resampled`.  If the model is not
ready, return immediately.  Otherwise publish the UI feedback values, and
on predictor failure return without writing output.  On success apply the
gains, render the harmonic frame (updating the harmonic state), and push
`user_hop_size` resampled samples into the output ring. -/
noncomputable def renderStep (st : PipelineState) (model_result : Option SynthesisControls)
    (resampled : List ℝ) : PipelineState :=
  if st.model_ready = false then st
  else
    let f0 := offsetPitch st.f0_hz st.pitch_shift_semitones
    let f0_norm := normalizedPitch f0
    let st1 := { st with current_pitch := f0_norm, current_rms := st.loudness_norm }
    match model_result with
    | none => st1
    | some controls =>
      let amplitude := controls.amplitude * st.harmonic_gain
      let hr := render 60 320 16000 st1.harmonic controls.harmonics amplitude f0
      let st2 := { st1 with harmonic := hr.2 }
      match st2.output_fifo with
      | none => st2
      | some f =>
        { st2 with output_fifo := some (f.write (resampled.take st2.user_hop_size.toNat)) }

/-- `DDSPConfig` (DDSPTypes.h), restricted to the fields
`updateForSampleRate` reads and writes. -/
structure DDSPConfig where
  sample_rate : ℚ
  samples_per_block : ℤ
  num_threads : ℤ
  user_frame_size : ℤ
  user_hop_size : ℤ

/-- `DDSPConfig::updateForSampleRate` (DDSPTypes.h lines 112-117). -/
def DDSPConfig.updateForSampleRate (cfg : DDSPConfig) (sr : ℚ) : DDSPConfig :=
  { cfg with
    sample_rate := sr
    user_frame_size := ⌈sr * 1024 / 16000⌉
    user_hop_size := ratTrunc (sr * 320 / 16000) }

/-! Helper lemmas shared by several claims. -/

theorem sum_map_mul_const (l : List ℝ) (r : ℝ) :
    (l.map fun c => c * r).sum = l.sum * r := by
  induction l with
  | nil => simp
  | cons a t ih => simp [ih, add_mul]

theorem getD_nonneg (l : List ℝ) (hnn : ∀ c ∈ l, 0 ≤ c) : ∀ i, 0 ≤ l.getD i 0 := by
  induction l with
  | nil => intro i; simp [List.getD]
  | cons a t ih =>
    intro i
    cases i with
    | zero => simpa using hnn a (by simp)
    | succ j => simpa using ih (fun c hc => hnn c (by simp [hc])) j

/-- If the sum of the Nyquist-filtered coefficients is nonzero, the
normalized distribution sums exactly to the amplitude. -/
theorem normalize_sum_of_total_ne (numH : ℕ) (fs : ℝ) (hd : List ℝ) (a f0 : ℝ)
    (hne : ((List.range numH).map fun (i : ℕ) =>
      if fs / 2 ≤ ((i : ℝ) + 1) * f0 then 0 else hd.getD i 0).sum ≠ 0) :
    (normalizeHarmonicDistribution numH fs hd a f0).sum = a := by
  simp only [normalizeHarmonicDistribution]
  rw [if_neg hne, sum_map_mul_const, sum_map_mul_const, mul_one_div, div_self hne, one_mul]

/-- C1: for every harmonic distribution of 60 nonnegative coefficients,
every amplitude and every f0_hz, after
`HarmonicSynthesizer::normalizeHarmonicDistribution` runs, if at least one
coefficient whose harmonic frequency `(i+1) * f0_hz` is below Nyquist
(8000 Hz) was nonzero, then the sum of the resulting coefficients equals
the amplitude within 1e-5 (here: exactly, hence within the tolerance). -/
theorem normalize_sum_eq_amplitude (hd : List ℝ) (amplitude f0_hz : ℝ)
    (hlen : hd.length = 60)
    (hnn : ∀ c ∈ hd, 0 ≤ c)
    (hex : ∃ i : ℕ, i < 60 ∧ ((i : ℝ) + 1) * f0_hz < 8000 ∧ hd.getD i 0 ≠ 0) :
    |(normalizeHarmonicDistribution 60 16000 hd amplitude f0_hz).sum - amplitude| ≤ 1 / 100000 := by
  obtain ⟨i, hi, hfreq, hcoef⟩ := hex
  have hcond : ¬ ((16000 : ℝ) / 2 ≤ ((i : ℝ) + 1) * f0_hz) := by
    push_neg; linarith
  have hmem : hd.getD i 0 ∈ (List.range 60).map (fun (j : ℕ) =>
      if (16000 : ℝ) / 2 ≤ ((j : ℝ) + 1) * f0_hz then 0 else hd.getD j 0) := by
    refine List.mem_map.mpr ⟨i, List.mem_range.mpr hi, ?_⟩
    rw [if_neg hcond]
  have hznn : ∀ x ∈ (List.range 60).map (fun (j : ℕ) =>
      if (16000 : ℝ) / 2 ≤ ((j : ℝ) + 1) * f0_hz then 0 else hd.getD j 0), (0 : ℝ) ≤ x := by
    intro x hx
    obtain ⟨j, _, rfl⟩ := List.mem_map.mp hx
    by_cases hc : (16000 : ℝ) / 2 ≤ ((j : ℝ) + 1) * f0_hz
    · rw [if_pos hc]
    · rw [if_neg hc]; exact getD_nonneg hd hnn j
  have hipos : 0 < hd.getD i 0 :=
    lt_of_le_of_ne (getD_nonneg hd hnn i) (Ne.symm hcoef)
  have hpos : 0 < ((List.range 60).map (fun (j : ℕ) =>
      if (16000 : ℝ) / 2 ≤ ((j : ℝ) + 1) * f0_hz then 0 else hd.getD j 0)).sum :=
    lt_of_lt_of_le hipos (List.single_le_sum hznn _ hmem)
  rw [normalize_sum_of_total_ne 60 16000 hd amplitude f0_hz (ne_of_gt hpos)]
  simp

/-- C1 witness: a distribution with a single nonzero sub-Nyquist
coefficient, amplitude 2, f0 = 440 Hz. -/
theorem normalize_sum_eq_amplitude_witness :
    |(normalizeHarmonicDistribution 60 16000 ((1 : ℝ) :: List.replicate 59 0) 2 440).sum - 2|
      ≤ 1 / 100000 := by
  refine normalize_sum_eq_amplitude ((1 : ℝ) :: List.replicate 59 0) 2 440 (by simp) ?_ ?_
  · intro c hc
    rcases List.mem_cons.mp hc with h | h
    · rw [h]; norm_num
    · rw [List.eq_of_mem_replicate h]
  · exact ⟨0, by norm_num, by norm_num, by simp⟩

/-- With `f0 = 1000` at the 16 kHz model rate, the normalized distribution
depends only on the coefficients at indices below 7 (harmonic orders below
8): the rest is zeroed by the Nyquist filter before the total is taken. -/
theorem normalize_eq_of_agree_below (d1 d2 : List ℝ) (a : ℝ)
    (hlow : ∀ i : ℕ, i < 7 → d1.getD i 0 = d2.getD i 0) :
    normalizeHarmonicDistribution 60 16000 d1 a 1000 =
      normalizeHarmonicDistribution 60 16000 d2 a 1000 := by
  have hz : ((List.range 60).map fun (i : ℕ) =>
      if (16000 : ℝ) / 2 ≤ ((i : ℝ) + 1) * 1000 then 0 else d1.getD i 0) =
      (List.range 60).map fun (i : ℕ) =>
      if (16000 : ℝ) / 2 ≤ ((i : ℝ) + 1) * 1000 then 0 else d2.getD i 0 := by
    apply List.map_congr_left
    intro i _
    by_cases hc : (16000 : ℝ) / 2 ≤ ((i : ℝ) + 1) * 1000
    · rw [if_pos hc, if_pos hc]
    · rw [if_neg hc, if_neg hc]
      apply hlow
      by_contra h
      push_neg at h
      apply hc
      have h7 : (7 : ℝ) ≤ (i : ℝ) := by exact_mod_cast h
      linarith
  simp only [normalizeHarmonicDistribution]
  rw [hz]

/-- C4: a single `HarmonicSynthesizer::render` call from the reset state
with `f0_hz = 1000` does not depend on the coefficients of harmonics of
order at least 8 (frequency at least 8000 Hz = Nyquist): two length-60
distributions agreeing below index 7 render identically (same output and
same updated state). -/
theorem render_nyquist_harmonics_ignored (d1 d2 : List ℝ) (amplitude : ℝ)
    (h1 : d1.length = 60) (h2 : d2.length = 60)
    (hlow : ∀ i : ℕ, i < 7 → d1.getD i 0 = d2.getD i 0) :
    render 60 320 16000 (HarmonicState.init 60) d1 amplitude 1000 =
      render 60 320 16000 (HarmonicState.init 60) d2 amplitude 1000 := by
  have hnd := normalize_eq_of_agree_below d1 d2 amplitude hlow
  simp only [render]
  rw [hnd]

theorem getD_replicate_lt (n i : ℕ) (a d : ℝ) (h : i < n) :
    (List.replicate n a).getD i d = a := by
  induction n generalizing i with
  | zero => omega
  | succ m ih =>
    cases i with
    | zero => simp [List.replicate_succ]
    | succ j =>
      rw [List.replicate_succ, List.getD_cons_succ]
      exact ih j (by omega)

/-- C4 witness: the all-ones distribution renders identically to one whose
harmonics of order 8 and above are changed to 2. -/
theorem render_nyquist_harmonics_ignored_witness :
    render 60 320 16000 (HarmonicState.init 60) (List.replicate 60 (1 : ℝ)) 1 1000 =
      render 60 320 16000 (HarmonicState.init 60)
        (List.replicate 7 (1 : ℝ) ++ List.replicate 53 2) 1 1000 := by
  refine render_nyquist_harmonics_ignored _ _ 1 (by simp) (by simp) ?_
  intro i hi
  rw [getD_replicate_lt 60 i 1 0 (by omega),
    List.getD_append _ _ _ _ (by simpa using hi),
    getD_replicate_lt 7 i 1 0 hi]

theorem kTwoPi_pos : 0 < kTwoPi := by
  rw [kTwoPi]
  positivity

theorem interpolateLinearly_nonneg (num : ℕ) (first last : ℝ)
    (hf : 0 ≤ first) (hl : 0 ≤ last) :
    ∀ x ∈ interpolateLinearly num first last, 0 ≤ x := by
  intro x hx
  rw [interpolateLinearly] at hx
  obtain ⟨i, hir, rfl⟩ := List.mem_map.mp hx
  have hi : i < num := List.mem_range.mp hir
  have h0 : (0 : ℝ) ≤ (i : ℝ) / (num : ℝ) := by positivity
  have h1 : (i : ℝ) / (num : ℝ) ≤ 1 := by
    have hnum : 0 < num := Nat.lt_of_le_of_lt (Nat.zero_le i) hi
    rw [div_le_one (by exact_mod_cast hnum)]
    exact_mod_cast Nat.le_of_lt hi
  nlinarith [mul_nonneg h0 hl, mul_nonneg (sub_nonneg.mpr h1) hf]

theorem midwayLerp_nonneg (len : ℕ) (first last : ℝ)
    (hf : 0 ≤ first) (hl : 0 ≤ last) :
    ∀ x ∈ midwayLerp len first last, 0 ≤ x := by
  intro x hx
  rcases List.mem_append.mp hx with h | h
  · exact interpolateLinearly_nonneg _ _ _ hf hl x h
  · rw [List.eq_of_mem_replicate h]; exact hl

theorem cumsum_nonneg (l : List ℝ) (h : ∀ x ∈ l, 0 ≤ x) : ∀ y ∈ cumsum l, 0 ≤ y := by
  induction l with
  | nil => simp [cumsum]
  | cons a t ih =>
    intro y hy
    simp only [cumsum, List.mem_cons, List.mem_map] at hy
    have ha := h a (by simp)
    rcases hy with rfl | ⟨z, hz, rfl⟩
    · exact ha
    · have hz0 := ih (fun x hx => h x (by simp [hx])) z hz
      linarith

theorem getLastD_nonneg (l : List ℝ) (h : ∀ x ∈ l, 0 ≤ x) :
    ∀ d, 0 ≤ d → 0 ≤ l.getLastD d := by
  induction l with
  | nil => intro d hd; simpa using hd
  | cons a t ih =>
    intro d _
    rw [List.getLastD_cons]
    exact ih (fun x hx => h x (by simp [hx])) a (h a (by simp))

theorem cfmod_nonneg_lt (x y : ℝ) (hx : 0 ≤ x) (hy : 0 < y) :
    0 ≤ cfmod x y ∧ cfmod x y < y := by
  have hdiv : 0 ≤ x / y := div_nonneg hx hy.le
  have htr : ctrunc (x / y) = ⌊x / y⌋ := if_pos hdiv
  have hkey : cfmod x y = y * Int.fract (x / y) := by
    rw [cfmod, htr, Int.fract, mul_sub, mul_div_cancel₀ x (ne_of_gt hy)]
  constructor
  · rw [hkey]
    exact mul_nonneg hy.le (Int.fract_nonneg _)
  · rw [hkey]
    calc y * Int.fract (x / y) < y * 1 := by
          exact mul_lt_mul_of_pos_left (Int.fract_lt_one _) hy
      _ = y := mul_one y

/-- C5: `previous_phase` lying in `[0, 2*pi)` is an invariant of the
HarmonicSynthesizer state: it holds after construction and after `reset`,
and it is preserved by every `render` call whose f0 argument and stored
previous f0 are nonnegative (the phase is rewritten to the last
accumulated phase modulo `2*pi`). -/
theorem harmonic_phase_invariant :
    (∀ numH, phaseInvariant (HarmonicState.init numH)) ∧
    (∀ numH st, phaseInvariant (HarmonicState.resetState numH st)) ∧
    (∀ st (hd : List ℝ) (amplitude f0_hz : ℝ), 0 ≤ f0_hz →
      (∀ g ∈ st.previous_f0, 0 ≤ g) → phaseInvariant st →
      phaseInvariant (render 60 320 16000 st hd amplitude f0_hz).2) := by
  have hinit : ∀ numH, phaseInvariant (HarmonicState.init numH) := by
    intro numH
    exact ⟨le_refl 0, kTwoPi_pos⟩
  refine ⟨hinit, fun numH st => hinit numH, ?_⟩
  intro st hd amplitude f0_hz hf0 hprevopt hinv
  have hprevf0 : 0 ≤ st.previous_f0.getD f0_hz := by
    cases hopt : st.previous_f0 with
    | none => simpa using hf0
    | some g => simpa using hprevopt g (by rw [hopt]; rfl)
  have henv : ∀ x ∈ midwayLerp 320 (st.previous_f0.getD f0_hz) f0_hz, 0 ≤ x :=
    midwayLerp_nonneg _ _ _ hprevf0 hf0
  have hrad : ∀ x ∈ (midwayLerp 320 (st.previous_f0.getD f0_hz) f0_hz).map
      (fun f => f * (kTwoPi / (16000 : ℝ))), 0 ≤ x := by
    intro x hx
    obtain ⟨f, hf, rfl⟩ := List.mem_map.mp hx
    have h2 : (0 : ℝ) ≤ kTwoPi / (16000 : ℝ) := by
      have := kTwoPi_pos
      positivity
    exact mul_nonneg (henv f hf) h2
  have hphases : ∀ p ∈ (cumsum ((midwayLerp 320 (st.previous_f0.getD f0_hz) f0_hz).map
      (fun f => f * (kTwoPi / (16000 : ℝ))))).map (fun p => p + st.previous_phase), 0 ≤ p := by
    intro p hp
    obtain ⟨z, hz, rfl⟩ := List.mem_map.mp hp
    have hz0 := cumsum_nonneg _ hrad z hz
    have hp0 := hinv.1
    linarith
  have hlast : 0 ≤ ((cumsum ((midwayLerp 320 (st.previous_f0.getD f0_hz) f0_hz).map
      (fun f => f * (kTwoPi / (16000 : ℝ))))).map (fun p => p + st.previous_phase)).getLastD 0 :=
    getLastD_nonneg _ hphases 0 (le_refl 0)
  have hb := cfmod_nonneg_lt _ kTwoPi hlast kTwoPi_pos
  simp only [render, phaseInvariant]
  exact hb

/-- C5 witness: the invariant after one render call on the freshly
constructed synthesizer at f0 = 1000 Hz. -/
theorem harmonic_phase_invariant_witness :
    phaseInvariant
      (render 60 320 16000 (HarmonicState.init 60) (List.replicate 60 (1 : ℝ)) 1 1000).2 := by
  refine harmonic_phase_invariant.2.2 (HarmonicState.init 60) (List.replicate 60 (1 : ℝ))
    1 1000 (by norm_num) ?_ (harmonic_phase_invariant.1 60)
  intro g hg
  simp [HarmonicState.init] at hg

theorem sanitize_amp_of_zero (t : List FloatVal) :
    (sanitizeHarmonics t (FloatVal.val 0)).2 = FloatVal.val 0 := by
  induction t with
  | nil => rfl
  | cons a t ih =>
    by_cases ha : a.isNaN
    · simp [sanitizeHarmonics, ha, ih]
    · simp [sanitizeHarmonics, ha, ih]

theorem sanitize_getD_nan : ∀ (t : List FloatVal) (amp : FloatVal) (i : ℕ),
    i < t.length → (t.getD i FloatVal.nan).isNaN = true →
    (sanitizeHarmonics t amp).1.getD i FloatVal.nan = FloatVal.val 0 := by
  intro t
  induction t with
  | nil => intro amp i hi _; simp at hi
  | cons a t ih =>
    intro amp i hi hnan
    by_cases ha : a.isNaN
    · cases i with
      | zero => simp [sanitizeHarmonics, ha]
      | succ j =>
        simp only [sanitizeHarmonics, if_pos ha, List.getD_cons_succ]
        exact ih (FloatVal.val 0) j (by simpa using hi) (by simpa using hnan)
    · cases i with
      | zero =>
        rw [List.getD_cons_zero] at hnan
        exact absurd hnan ha
      | succ j =>
        simp only [sanitizeHarmonics, if_neg ha, List.getD_cons_succ]
        exact ih amp j (by simpa using hi) (by simpa using hnan)

theorem sanitize_no_nan : ∀ (t : List FloatVal) (amp : FloatVal),
    ∀ x ∈ (sanitizeHarmonics t amp).1, x.isNaN = false := by
  intro t
  induction t with
  | nil => intro amp x hx; simp [sanitizeHarmonics] at hx
  | cons a t ih =>
    intro amp x hx
    by_cases ha : a.isNaN
    · simp only [sanitizeHarmonics, if_pos ha] at hx
      rcases List.mem_cons.mp hx with rfl | hx
      · rfl
      · exact ih (FloatVal.val 0) x hx
    · simp only [sanitizeHarmonics, if_neg ha] at hx
      rcases List.mem_cons.mp hx with rfl | hx
      · exact Bool.eq_false_iff.mpr ha
      · exact ih amp x hx

theorem sanitize_amp_of_nan : ∀ (t : List FloatVal) (amp : FloatVal),
    (∃ x ∈ t, x.isNaN = true) → (sanitizeHarmonics t amp).2 = FloatVal.val 0 := by
  intro t
  induction t with
  | nil => intro amp hx; simp at hx
  | cons a t ih =>
    intro amp hx
    by_cases ha : a.isNaN
    · simp only [sanitizeHarmonics, if_pos ha]
      exact sanitize_amp_of_zero t
    · obtain ⟨x, hmem, hxnan⟩ := hx
      rcases List.mem_cons.mp hmem with rfl | hmem
      · exact absurd hxnan ha
      · simp only [sanitizeHarmonics, if_neg ha]
        exact ih amp ⟨x, hmem, hxnan⟩

/-- C2 (amended): after the NaN sanitization loop of
`PredictControlsModel::call`, every harmonic that was NaN is 0, the
amplitude is forced to 0 whenever any harmonic was NaN, and no resulting
harmonic is NaN.  (Infinities are not NaN and pass through unchanged, so
the resulting harmonics need not all be finite.) -/
theorem predict_call_nan_killswitch (harmonics : List FloatVal) (amplitude : FloatVal) :
    (∀ i : ℕ, i < harmonics.length → (harmonics.getD i FloatVal.nan).isNaN = true →
      (sanitizeHarmonics harmonics amplitude).1.getD i FloatVal.nan = FloatVal.val 0) ∧
    ((∃ x ∈ harmonics, x.isNaN = true) →
      (sanitizeHarmonics harmonics amplitude).2 = FloatVal.val 0) ∧
    (∀ x ∈ (sanitizeHarmonics harmonics amplitude).1, x.isNaN = false) :=
  ⟨fun i hi hnan => sanitize_getD_nan harmonics amplitude i hi hnan,
   fun hex => sanitize_amp_of_nan harmonics amplitude hex,
   fun x hx => sanitize_no_nan harmonics amplitude x hx⟩

/-- C2 counterexample to the claim as stated: a positive infinity among
the predictor's harmonics survives sanitization, so the resulting
harmonics are not all finite. -/
theorem predict_call_nan_killswitch_counterexample :
    ¬ (∀ x ∈ (sanitizeHarmonics
        (FloatVal.posInf :: FloatVal.nan :: List.replicate 58 (FloatVal.val 0))
        (FloatVal.val 1)).1, x.isFiniteVal = true) := by
  decide

/-- C2 witness: a concrete run where the first harmonic is NaN. -/
theorem predict_call_nan_killswitch_witness :
    (sanitizeHarmonics [FloatVal.nan, FloatVal.val 3] (FloatVal.val 5)).1.getD 0 FloatVal.nan
        = FloatVal.val 0 ∧
      (sanitizeHarmonics [FloatVal.nan, FloatVal.val 3] (FloatVal.val 5)).2 = FloatVal.val 0 := by
  constructor
  · exact (predict_call_nan_killswitch [FloatVal.nan, FloatVal.val 3] (FloatVal.val 5)).1 0
      (by decide) (by decide)
  · exact (predict_call_nan_killswitch [FloatVal.nan, FloatVal.val 3] (FloatVal.val 5)).2.1
      ⟨FloatVal.nan, by decide, by decide⟩

/-! Pipeline helper lemmas. -/

theorem zeroPad_preserves (st : PipelineState) :
    (zeroPadInputBuffer st).user_frame_size = st.user_frame_size ∧
    (zeroPadInputBuffer st).user_hop_size = st.user_hop_size ∧
    (zeroPadInputBuffer st).output_fifo = st.output_fifo ∧
    (zeroPadInputBuffer st).should_run = st.should_run ∧
    (zeroPadInputBuffer st).gru_state = st.gru_state ∧
    (zeroPadInputBuffer st).harmonic = st.harmonic ∧
    (zeroPadInputBuffer st).noise = st.noise := by
  by_cases h : st.user_frame_size ≤ 0
  · simp [zeroPadInputBuffer, h]
  · cases hfi : st.input_fifo with
    | none => simp [zeroPadInputBuffer, h, hfi]
    | some f => simp [zeroPadInputBuffer, h, hfi, pushToInputBuffer]

theorem zeroPad_input_none (st : PipelineState) (hfi : st.input_fifo = none) :
    (zeroPadInputBuffer st).input_fifo = none := by
  by_cases h : st.user_frame_size ≤ 0
  · simp [zeroPadInputBuffer, h, hfi]
  · simp [zeroPadInputBuffer, h, hfi]

theorem zeroPad_input_some (st : PipelineState) (f : Fifo)
    (hpos : 0 < st.user_frame_size) (hfi : st.input_fifo = some f)
    (hcap : st.user_frame_size.toNat ≤ f.capacity - f.data.length) :
    (zeroPadInputBuffer st).input_fifo =
      some { capacity := f.capacity,
             data := f.data ++ List.replicate st.user_frame_size.toNat 0 } := by
  have h : ¬ (st.user_frame_size ≤ 0) := not_le.mpr hpos
  simp [zeroPadInputBuffer, h, hfi, pushToInputBuffer, Fifo.write, Fifo.freeSpace,
    List.take_replicate, Nat.min_eq_right hcap]

theorem reset_preserves_should_run (st : PipelineState) :
    (resetPipeline st).should_run = st.should_run := by
  rw [resetPipeline]
  exact (zeroPad_preserves _).2.2.2.1

theorem prepare_frame_hop (st : PipelineState) (sr : ℚ) (bs : ℤ) :
    (prepareToPlay st sr bs).user_frame_size = ⌈sr * 1024 / 16000⌉ ∧
    (prepareToPlay st sr bs).user_hop_size = ratTrunc (sr * 320 / 16000) ∧
    (prepareToPlay st sr bs).output_fifo = some { capacity := 61440, data := [] } := by
  rw [prepareToPlay, resetPipeline]
  refine ⟨?_, ?_, ?_⟩
  · exact (zeroPad_preserves _).1
  · exact (zeroPad_preserves _).2.1
  · rw [(zeroPad_preserves _).2.2.1]
    rfl

theorem ratTrunc_of_nonneg (q : ℚ) (h : 0 ≤ q) : ratTrunc q = ⌊q⌋ := if_pos h

/-- C10: calling `getNextBlock` (hence `popFromOutputBuffer`) before
`prepareToPlay` has created the output FIFO returns 0 and leaves the
destination buffer unmodified; the documented zero-fill happens only when
an output FIFO exists.  The constructor state has no output FIFO. -/
theorem getNextBlock_no_output_fifo (st : PipelineState) (output : List ℝ) (n : ℕ)
    (h : st.output_fifo = none) :
    (getNextBlock st output n).1 = output ∧ (getNextBlock st output n).2.1 = 0 := by
  simp [getNextBlock, popFromOutputBuffer, h]

/-- C10 witness: the freshly constructed pipeline. -/
theorem getNextBlock_no_output_fifo_witness :
    (getNextBlock initPipeline [(3 : ℝ), 4, 5] 2).1 = [(3 : ℝ), 4, 5] ∧
    (getNextBlock initPipeline [(3 : ℝ), 4, 5] 2).2.1 = 0 :=
  getNextBlock_no_output_fifo initPipeline [(3 : ℝ), 4, 5] 2 rfl

/-- C6: popping `n` samples from a prepared output ring holding `k <= n`
samples returns `k`, writes those `k` samples followed by `n - k` zeros
into the destination, and leaves positions past `n` untouched; in
particular an empty ring yields `n` zeros and a returned count of 0. -/
theorem pop_underrun_zero_fill (st : PipelineState) (f : Fifo) (output : List ℝ) (n : ℕ)
    (hst : st.output_fifo = some f) (hk : f.numReady ≤ n) :
    (popFromOutputBuffer st output n).2.1 = f.numReady ∧
    (popFromOutputBuffer st output n).1 =
      f.data ++ List.replicate (n - f.numReady) 0 ++ output.drop n ∧
    (f.data = [] → (popFromOutputBuffer st output n).2.1 = 0 ∧
      (popFromOutputBuffer st output n).1 = List.replicate n 0 ++ output.drop n) := by
  have htake : f.data.take n = f.data := List.take_of_length_le hk
  refine ⟨?_, ?_, ?_⟩
  · simp [popFromOutputBuffer, hst, Fifo.read, htake, Fifo.numReady]
  · simp [popFromOutputBuffer, hst, Fifo.read, htake, Fifo.numReady]
  · intro hdata
    constructor
    · simp [popFromOutputBuffer, hst, Fifo.read, htake, Fifo.numReady, hdata]
    · simp [popFromOutputBuffer, hst, Fifo.read, htake, Fifo.numReady, hdata]

/-- A prepared pipeline whose output ring holds two samples, for the C6
witness. -/
noncomputable def popWitnessState : PipelineState :=
  { initPipeline with output_fifo := some { capacity := 61440, data := [5, 7] } }

/-- C6 witness: popping 4 samples from a ring holding [5, 7] returns 2 and
yields [5, 7, 0, 0] in the first four positions, leaving the fifth
untouched. -/
theorem pop_underrun_zero_fill_witness :
    (popFromOutputBuffer popWitnessState [(9 : ℝ), 9, 9, 9, 9] 4).2.1 = 2 ∧
    (popFromOutputBuffer popWitnessState [(9 : ℝ), 9, 9, 9, 9] 4).1 = [5, 7, 0, 0, 9] := by
  have h := pop_underrun_zero_fill popWitnessState { capacity := 61440, data := [(5 : ℝ), 7] }
    [(9 : ℝ), 9, 9, 9, 9] 4 rfl (by norm_num [Fifo.numReady])
  refine ⟨?_, ?_⟩
  · rw [h.1]
    rfl
  · rw [h.2.1]
    norm_num [Fifo.numReady]
    rfl

/-- C7: if the predictor is not loaded, or the predictor call fails,
`InferencePipeline::render` leaves the output ring (and hence its ready
count) unchanged; samples are pushed only after a successful predictor
call. -/
theorem render_failure_no_output (st : PipelineState) (model_result : Option SynthesisControls)
    (resampled : List ℝ) (h : st.model_ready = false ∨ model_result = none) :
    (renderStep st model_result resampled).output_fifo = st.output_fifo ∧
    getNumReadySamples (renderStep st model_result resampled) = getNumReadySamples st := by
  rcases h with h | h
  · simp [renderStep, h]
  · subst h
    by_cases hr : st.model_ready = false
    · simp [renderStep, hr]
    · constructor
      · simp [renderStep, hr]
      · simp [renderStep, hr, getNumReadySamples]

/-- C7 witness: the freshly constructed pipeline (model not loaded). -/
theorem render_failure_no_output_witness :
    (renderStep initPipeline none []).output_fifo = initPipeline.output_fifo ∧
    getNumReadySamples (renderStep initPipeline none []) = getNumReadySamples initPipeline :=
  render_failure_no_output initPipeline none [] (Or.inl rfl)

theorem reset_components (st : PipelineState) :
    (resetPipeline st).gru_state = List.replicate 512 (0 : ℝ) ∧
    (resetPipeline st).harmonic = HarmonicState.init 60 ∧
    (resetPipeline st).noise = st.noise.resetState ∧
    (resetPipeline st).output_fifo = st.output_fifo.map Fifo.reset ∧
    (resetPipeline st).user_frame_size = st.user_frame_size ∧
    (resetPipeline st).user_hop_size = st.user_hop_size := by
  rw [resetPipeline]
  refine ⟨?_, ?_, ?_, ?_, ?_, ?_⟩
  · rw [(zeroPad_preserves _).2.2.2.2.1]
  · rw [(zeroPad_preserves _).2.2.2.2.2.1]
    rfl
  · rw [(zeroPad_preserves _).2.2.2.2.2.2]
  · rw [(zeroPad_preserves _).2.2.1]
  · rw [(zeroPad_preserves _).1]
  · rw [(zeroPad_preserves _).2.1]

theorem reset_input_some (st : PipelineState) (f : Fifo)
    (hfi : st.input_fifo = some f) (hpos : 0 < st.user_frame_size)
    (hcap : st.user_frame_size.toNat ≤ f.capacity) :
    (resetPipeline st).input_fifo =
      some { capacity := f.capacity, data := List.replicate st.user_frame_size.toNat 0 } := by
  rw [resetPipeline]
  exact zeroPad_input_some _ (Fifo.reset f) hpos (by simp [hfi])
    (by simpa [Fifo.reset] using hcap)

/-- C3 (amended): after `prepareToPlay`, for a positive host rate whose
frame size fits the ring, the INPUT ring contains exactly
`user_frame_size = ceil(rate * 1024 / 16000)` samples of silence, and the
output ring is empty (`getNumReadySamples` is 0). -/
theorem prepare_zero_pads_input_ring (st : PipelineState) (sr : ℚ) (bs : ℤ)
    (hsr : 0 < sr) (hfit : (⌈sr * 1024 / 16000⌉ : ℤ).toNat ≤ 61440) :
    (prepareToPlay st sr bs).user_frame_size = ⌈sr * 1024 / 16000⌉ ∧
    (prepareToPlay st sr bs).input_fifo =
      some { capacity := 61440,
             data := List.replicate (⌈sr * 1024 / 16000⌉ : ℤ).toNat (0 : ℝ) } ∧
    getNumReadySamples (prepareToPlay st sr bs) = 0 := by
  have hufs : (0 : ℤ) < ⌈sr * 1024 / 16000⌉ := Int.ceil_pos.mpr (by positivity)
  refine ⟨(prepare_frame_hop st sr bs).1, ?_, ?_⟩
  · rw [prepareToPlay]
    rw [reset_input_some _ { capacity := 61440, data := [] } rfl hufs hfit]
  · simp [getNumReadySamples, (prepare_frame_hop st sr bs).2.2, Fifo.numReady]

/-- C3 counterexample to the claim as stated: at host rate 48000 the
output ring is empty after `prepareToPlay` (the zero padding goes into the
input ring), while `user_frame_size` is 3072. -/
theorem prepare_zero_pads_counterexample :
    ¬ ((getNumReadySamples (prepareToPlay initPipeline 48000 512) : ℤ) =
       (prepareToPlay initPipeline 48000 512).user_frame_size) := by
  have hout : getNumReadySamples (prepareToPlay initPipeline 48000 512) = 0 := by
    simp [getNumReadySamples, (prepare_frame_hop initPipeline 48000 512).2.2, Fifo.numReady]
  have hufs : (prepareToPlay initPipeline 48000 512).user_frame_size = 3072 := by
    rw [(prepare_frame_hop initPipeline 48000 512).1, Int.ceil_eq_iff]
    constructor
    · norm_num
    · norm_num
  rw [hout, hufs]
  norm_num

/-- C3 witness for the amended claim: host rate 48000, block 512. -/
theorem prepare_zero_pads_input_ring_witness :
    (prepareToPlay initPipeline 48000 512).user_frame_size =
        ⌈(48000 : ℚ) * 1024 / 16000⌉ ∧
    (prepareToPlay initPipeline 48000 512).input_fifo =
      some { capacity := 61440,
             data := List.replicate (⌈(48000 : ℚ) * 1024 / 16000⌉ : ℤ).toNat (0 : ℝ) } ∧
    getNumReadySamples (prepareToPlay initPipeline 48000 512) = 0 := by
  refine prepare_zero_pads_input_ring initPipeline 48000 512 (by norm_num) ?_
  have h : (⌈(48000 : ℚ) * 1024 / 16000⌉ : ℤ) = 3072 := by
    rw [Int.ceil_eq_iff]
    constructor
    · norm_num
    · norm_num
  rw [h]
  norm_num

/-- The default-constructed `DDSPConfig`. -/
def initConfig : DDSPConfig :=
  { sample_rate := 48000
    samples_per_block := 512
    num_threads := 2
    user_frame_size := 0
    user_hop_size := 0 }

/-- C8 (amended): the per-hop number of host-rate samples prepared for
the output ring is `floor(host_rate * 320 / 16000)` (the `static_cast`
truncation of the nonnegative quotient), not the nearest integer. -/
theorem user_hop_size_is_floor (st : PipelineState) (cfg : DDSPConfig) (sr : ℚ) (bs : ℤ)
    (h : 0 ≤ sr) :
    (prepareToPlay st sr bs).user_hop_size = ⌊sr * 320 / 16000⌋ ∧
    (cfg.updateForSampleRate sr).user_hop_size = ⌊sr * 320 / 16000⌋ := by
  have h0 : (0 : ℚ) ≤ sr * 320 / 16000 := by positivity
  constructor
  · rw [(prepare_frame_hop st sr bs).2.1, ratTrunc_of_nonneg _ h0]
  · rw [DDSPConfig.updateForSampleRate, ratTrunc_of_nonneg _ h0]

/-- C8 counterexample to the claim as stated: at host rate 44130 Hz the
quotient is 882.6; the code produces 882 samples per hop, while the
nearest integer is 883. -/
theorem user_hop_size_round_counterexample :
    ¬ ((prepareToPlay initPipeline 44130 512).user_hop_size =
       round ((44130 : ℚ) * 320 / 16000)) := by
  have h1 : (prepareToPlay initPipeline 44130 512).user_hop_size = 882 := by
    rw [(prepare_frame_hop initPipeline 44130 512).2.1, ratTrunc_of_nonneg _ (by norm_num),
      Int.floor_eq_iff]
    constructor
    · norm_num
    · norm_num
  have h2 : round ((44130 : ℚ) * 320 / 16000) = 883 := by
    rw [round_eq, Int.floor_eq_iff]
    constructor
    · norm_num
    · norm_num
  rw [h1, h2]
  norm_num

/-- C8 witness for the amended claim: host rate 44130 Hz. -/
theorem user_hop_size_is_floor_witness :
    (prepareToPlay initPipeline 44130 512).user_hop_size = ⌊(44130 : ℚ) * 320 / 16000⌋ ∧
    (initConfig.updateForSampleRate 44130).user_hop_size = ⌊(44130 : ℚ) * 320 / 16000⌋ :=
  user_hop_size_is_floor initPipeline initConfig 44130 512 (by norm_num)

/-- C9 (amended): `InferencePipeline::reset` leaves the worker run flag
unchanged (it does not stop the worker), resets the predictor state and
both synthesizers, clears both ring buffers, and re-zero-pads the INPUT
ring with `user_frame_size` zeros (when prepared). -/
theorem pipeline_reset_behavior (st : PipelineState) :
    (resetPipeline st).should_run = st.should_run ∧
    (resetPipeline st).gru_state = List.replicate 512 (0 : ℝ) ∧
    (resetPipeline st).harmonic = HarmonicState.init 60 ∧
    (resetPipeline st).noise = st.noise.resetState ∧
    (resetPipeline st).output_fifo = st.output_fifo.map Fifo.reset ∧
    (st.input_fifo = none → (resetPipeline st).input_fifo = none) ∧
    (∀ f : Fifo, st.input_fifo = some f → 0 < st.user_frame_size →
      st.user_frame_size.toNat ≤ f.capacity →
      (resetPipeline st).input_fifo =
        some { capacity := f.capacity, data := List.replicate st.user_frame_size.toNat 0 }) := by
  have hc := reset_components st
  refine ⟨reset_preserves_should_run st, hc.1, hc.2.1, hc.2.2.1, hc.2.2.2.1, ?_, ?_⟩
  · intro hfi
    rw [resetPipeline]
    apply zeroPad_input_none
    simp [hfi]
  · intro f hfi hpos hcap
    exact reset_input_some st f hfi hpos hcap

/-- C9 counterexample to the claim as stated: resetting a pipeline whose
worker is running leaves the run flag set; `reset` does not stop the
worker. -/
theorem pipeline_reset_stops_worker_counterexample :
    ¬ ((resetPipeline { initPipeline with should_run := true }).should_run = false) := by
  rw [reset_preserves_should_run]
  simp

/-- A prepared pipeline with a running worker, for the C9 witness. -/
noncomputable def resetWitnessState : PipelineState :=
  { initPipeline with
    input_fifo := some { capacity := 61440, data := [] }
    user_frame_size := 3072
    should_run := true }

/-- C9 witness: resetting the prepared pipeline zero-pads its input ring
and leaves the worker flag as it was. -/
theorem pipeline_reset_behavior_witness :
    (resetPipeline resetWitnessState).input_fifo =
      some { capacity := 61440, data := List.replicate 3072 (0 : ℝ) } ∧
    (resetPipeline resetWitnessState).should_run = resetWitnessState.should_run := by
  constructor
  · have h := (pipeline_reset_behavior resetWitnessState).2.2.2.2.2.2
      { capacity := 61440, data := [] } rfl
      (by show (0 : ℤ) < 3072; norm_num)
      (by show (3072 : ℤ).toNat ≤ 61440; decide)
    have ht : resetWitnessState.user_frame_size.toNat = 3072 := by
      show (3072 : ℤ).toNat = 3072
      rfl
    rw [ht] at h
    exact h
  · exact (pipeline_reset_behavior resetWitnessState).1

end DDSP
